import Mathlib

/-
  Verification of the digest-parsing and classification pipeline of
  scripts/fetch_and_parse_digest.py.

  Texts are modelled as `List Char`.  Python regular-expression constructs are
  modelled by executable functions over `List Char`; `\s`, `\w`, lowercasing and
  the case-insensitive matching of the script's fixed ASCII patterns are
  modelled over the ASCII range (the script's keyword patterns are ASCII, and
  Python's semantics coincide with this model on ASCII text).
-/

namespace IBList

/-- Python regex whitespace class `\s` (ASCII range). -/
def isWS (c : Char) : Bool :=
  c == ' ' || c == '\t' || c == '\n' || c == '\r' || c == '\x0b' || c == '\x0c'

/-- Python regex word class `\w` (ASCII range: letters, digits, underscore). -/
def isWordChar (c : Char) : Bool :=
  c.isAlphanum || c == '_'

/-- str.lower (ASCII range). -/
def lowerL (s : List Char) : List Char := s.map Char.toLower

/-- `k` occurs at the head of `t`. -/
def startsWith : List Char → List Char → Bool
  | [], _ => true
  | _ :: _, [] => false
  | k :: ks, t :: ts => (k == t) && startsWith ks ts

/-- Python substring test `k in t`. -/
def containsSub : List Char → List Char → Bool
  | [], k => startsWith k []
  | t@(_ :: ts), k => startsWith k t || containsSub ts k

/-- Occurrence of the literal `k` at the current position of `t`, with word
boundaries on both sides; `prev` is the character preceding the position. -/
def boundaryAt (prev : Option Char) (t k : List Char) : Bool :=
  startsWith k t &&
    (match prev with
      | none => true
      | some c => !isWordChar c) &&
    (match t.drop k.length with
      | [] => true
      | c :: _ => !isWordChar c)

/-- re.search of the word-boundary pattern `\b k \b` in `t`. -/
def boundSearch : Option Char → List Char → List Char → Bool
  | prev, [], k => boundaryAt prev [] k
  | prev, c :: ts, k => boundaryAt prev (c :: ts) k || boundSearch (some c) ts k

/-- Python str.strip(). -/
def stripL (s : List Char) : List Char :=
  ((s.dropWhile isWS).reverse.dropWhile isWS).reverse

/-- PROFILE_DS_KEYWORDS of the script. -/
def PROFILE_DS_KEYWORDS : List (List Char) :=
  (["data science", "data scientist", "datenwissenschaft", "datenwissenschaftler",
    "datenanalyse", "datenanalyst", "datengetrieben", "datenbasiert",
    "datenkompetenz", "datenmanagement", "datenmodellierung",
    "datenvisualisierung", "datenbank", "business intelligence",
    "kuenstliche intelligenz", "künstliche intelligenz", "maschinelles lernen",
    "prädiktiv", "praediktiv", "prognosemodell", "text mining",
    "zeitreihenanalyse", "wirkungsanalyse", "evaluationsmethoden", "statistik",
    "statistische analyse", "quantitative methoden", "quantitative analyse",
    "paneldaten", "mikrodaten", "forschungsdaten", "survey daten", "umfragedaten",
    "machine learning", "ml", "ai", "artificial intelligence", "nlp",
    "natural language processing", "deep learning", "statistics", "statistical",
    "causal inference", "econometrics", "python", "r ", "sql", "pandas",
    "scikit", "analytics", "data analysis", "computational", "quantitative",
    "visualization", "gis", "big data"] : List String).map String.toList

/-- PROFILE_POLICY_KEYWORDS of the script. -/
def PROFILE_POLICY_KEYWORDS : List (List Char) :=
  (["public policy", "policy", "politikberatung", "politikfeldanalyse",
    "politikanalyse", "politikforschung", "oeffentliche politik",
    "öffentliche politik", "verwaltung", "oeffentliche verwaltung",
    "öffentliche verwaltung", "politik", "regierung", "ministerium", "bundestag",
    "bundesregierung", "laender", "länder", "kommunalpolitik", "eu",
    "europaeische union", "europäische union", "entwicklungspolitik",
    "sicherheitspolitik", "friedenspolitik", "klimapolitik", "migrationspolitik",
    "arbeitsmarktpolitik", "sozialpolitik", "bildungspolitik",
    "gesundheitspolitik", "regulierungspolitik", "verordnung", "gesetzgebung",
    "verwaltungswissenschaft", "politikwissenschaft", "sozialwissenschaft",
    "wirkungsorientierung", "evidenzbasiert", "evidenzbasierte politik",
    "folgenabschaetzung", "folgenabschätzung", "monitoring", "evaluation",
    "thinktank", "stiftung", "governance", "regulation", "regulatory",
    "government", "ministry", "parliament", "think tank",
    "international relations", "global political economy", "development",
    "public administration", "impact evaluation", "evidence-based",
    "social science", "political science", "public sector", "european union",
    "eu policy", "united nations", "peace", "security policy", "climate policy",
    "migration policy"] : List String).map String.toList

/-- ISOLATED_ABBREVIATIONS of the script. -/
def ISOLATED_ABBREVIATIONS : List (List Char) :=
  (["ml", "ai", "ki", "r"] : List String).map String.toList

/-- keyword_matches of the script: strip+lower the keyword; abbreviations are
matched with word boundaries, everything else as a substring. -/
def keyword_matches (lower_text : List Char) (keyword : List Char) : Bool :=
  let k := lowerL (stripL keyword)
  if k.isEmpty then false
  else if k ∈ ISOLATED_ABBREVIATIONS then boundSearch none lower_text k
  else containsSub lower_text k

/-- Result record of classify_ds_policy_fit. -/
structure FitResult where
  isDsPolicyFit : Bool
  dsPolicyScore : Nat
  dsPolicyMatchedKeywords : List (List Char)
deriving DecidableEq

/-- classify_ds_policy_fit of the script. -/
def classify_ds_policy_fit (text : List Char) : FitResult :=
  let lower := lowerL text
  let ds_hits := PROFILE_DS_KEYWORDS.filter (fun k => keyword_matches lower k)
  let policy_hits := PROFILE_POLICY_KEYWORDS.filter (fun k => keyword_matches lower k)
  let score := ds_hits.length + policy_hits.length
  { isDsPolicyFit :=
      decide (1 ≤ ds_hits.length) && decide (1 ≤ policy_hits.length) && decide (2 ≤ score),
    dsPolicyScore := score,
    dsPolicyMatchedKeywords := (ds_hits ++ policy_hits).take 10 }

theorem startsWith_append {k t : List Char} (u : List Char)
    (h : startsWith k t = true) : startsWith k (t ++ u) = true := by
  induction k generalizing t with
  | nil => simp [startsWith]
  | cons a ks ih =>
    cases t with
    | nil => simp [startsWith] at h
    | cons b ts =>
      simp only [startsWith, Bool.and_eq_true] at h
      simpa [startsWith, h.1] using ih h.2

theorem startsWith_length {k t : List Char} (h : startsWith k t = true) :
    k.length ≤ t.length := by
  induction k generalizing t with
  | nil => simp
  | cons a ks ih =>
    cases t with
    | nil => simp [startsWith] at h
    | cons b ts =>
      simp only [startsWith, Bool.and_eq_true] at h
      simpa using ih h.2

theorem containsSub_nil_pat (t : List Char) : containsSub t [] = true := by
  cases t <;> simp [containsSub, startsWith]

theorem containsSub_append_left {t k : List Char} (u : List Char)
    (h : containsSub t k = true) : containsSub (t ++ u) k = true := by
  induction t with
  | nil =>
    simp only [containsSub] at h
    cases k with
    | nil => simpa using containsSub_nil_pat u
    | cons a ks => simp [startsWith] at h
  | cons c ts ih =>
    simp only [containsSub, Bool.or_eq_true] at h ⊢
    rcases h with h | h
    · exact Or.inl (by simpa using startsWith_append (t := c :: ts) u h)
    · exact Or.inr (ih h)

theorem containsSub_append_right {u k : List Char} (t : List Char)
    (h : containsSub u k = true) : containsSub (t ++ u) k = true := by
  induction t with
  | nil => simpa using h
  | cons c ts ih => simp [containsSub, ih]

theorem boundaryAt_append {prev : Option Char} {t k : List Char} {d : Char}
    (u : List Char) (hd : isWordChar d = false)
    (h : boundaryAt prev t k = true) : boundaryAt prev (t ++ d :: u) k = true := by
  simp only [boundaryAt, Bool.and_eq_true] at h ⊢
  refine ⟨⟨startsWith_append _ h.1.1, h.1.2⟩, ?_⟩
  have hlen : k.length ≤ t.length := startsWith_length h.1.1
  rw [List.drop_append_of_le_length hlen]
  rcases hdrop : t.drop k.length with _ | ⟨c, rest⟩
  · simpa using hd
  · have := h.2
    rw [hdrop] at this
    simpa using this

theorem boundSearch_append {prev : Option Char} {t k : List Char} {d : Char}
    (u : List Char) (hd : isWordChar d = false)
    (h : boundSearch prev t k = true) :
    boundSearch prev (t ++ d :: u) k = true := by
  induction t generalizing prev with
  | nil =>
    simp only [boundSearch] at h
    have : boundaryAt prev (d :: u) k = true := by
      simp only [boundaryAt, Bool.and_eq_true] at h ⊢
      cases k with
      | nil => exact ⟨⟨by simp [startsWith], h.1.2⟩, by simpa using hd⟩
      | cons a ks => simp [startsWith] at h
    simpa [boundSearch] using Or.inl this
  | cons c ts ih =>
    simp only [boundSearch, Bool.or_eq_true] at h
    rcases h with h | h
    · have := boundaryAt_append (t := c :: ts) u hd h
      simpa [boundSearch] using Or.inl this
    · simpa [boundSearch] using Or.inr (ih h)

theorem keyword_matches_append {L k : List Char} {d : Char} (u : List Char)
    (hd : isWordChar d = false) (h : keyword_matches L k = true) :
    keyword_matches (L ++ d :: u) k = true := by
  unfold keyword_matches at h ⊢
  by_cases h0 : (lowerL (stripL k)).isEmpty
  · simp [h0] at h
  · simp only [h0, if_false] at h ⊢
    by_cases hab : lowerL (stripL k) ∈ ISOLATED_ABBREVIATIONS
    · simp only [hab, if_true] at h ⊢
      exact boundSearch_append u hd h
    · simp only [hab, if_false] at h ⊢
      exact containsSub_append_left _ h

theorem length_filter_mono {α : Type} (l : List α) (p q : α → Bool)
    (h : ∀ x ∈ l, p x = true → q x = true) :
    (l.filter p).length ≤ (l.filter q).length := by
  induction l with
  | nil => simp
  | cons a l ih =>
    have ih' := ih (fun x hx => h x (List.mem_cons_of_mem a hx))
    by_cases hp : p a = true
    · have hq := h a (List.mem_cons_self a l) hp
      simp [List.filter_cons, hp, hq]
      omega
    · have hp' : p a = false := by simpa using hp
      simp only [List.filter_cons, hp']
      by_cases hq : q a = true
      · simp [hq]; omega
      · have hq' : q a = false := by simpa using hq
        simp [hq']; omega

/-- C4: short-abbreviation keywords are matched only as whole words while other
keywords are substrings: the keyword "r " belongs to the data-science list, the
text "trial" does not satisfy it, while text containing a standalone "R " does;
an ordinary keyword like "policy" is matched as a plain substring. -/
theorem c4_word_boundary :
    ("r ".toList) ∈ PROFILE_DS_KEYWORDS ∧
    lowerL (stripL ("r ".toList)) ∈ ISOLATED_ABBREVIATIONS ∧
    keyword_matches (lowerL ("trial".toList)) ("r ".toList) = false ∧
    keyword_matches (lowerL ("we use R for analysis".toList)) ("r ".toList) = true ∧
    keyword_matches (lowerL ("R ".toList)) ("r ".toList) = true ∧
    keyword_matches (lowerL ("plan for monopoly".toList)) ("policy".toList) = false ∧
    keyword_matches (lowerL ("micropolicyx".toList)) ("policy".toList) = true := by
  decide

/-- C5: classifier monotonicity: appending any keyword of either profile list to
the text as a separate whitespace-delimited word never decreases dsPolicyScore
and can only turn isDsPolicyFit from false to true, never from true to false. -/
theorem c5_monotonicity (t k : List Char)
    (_hk : k ∈ PROFILE_DS_KEYWORDS ++ PROFILE_POLICY_KEYWORDS) :
    (classify_ds_policy_fit t).dsPolicyScore ≤
      (classify_ds_policy_fit (t ++ ' ' :: k)).dsPolicyScore ∧
    ((classify_ds_policy_fit t).isDsPolicyFit = true →
      (classify_ds_policy_fit (t ++ ' ' :: k)).isDsPolicyFit = true) := by
  clear _hk
  have hlow : lowerL (t ++ ' ' :: k) = lowerL t ++ ' ' :: lowerL k := by
    simp [lowerL]
  have hmono : ∀ kw : List Char, keyword_matches (lowerL t) kw = true →
      keyword_matches (lowerL (t ++ ' ' :: k)) kw = true := by
    intro kw hkw
    rw [hlow]
    exact keyword_matches_append (lowerL k) (by decide) hkw
  have hds := length_filter_mono PROFILE_DS_KEYWORDS
    (fun kw => keyword_matches (lowerL t) kw)
    (fun kw => keyword_matches (lowerL (t ++ ' ' :: k)) kw)
    (fun kw _ h => hmono kw h)
  have hpol := length_filter_mono PROFILE_POLICY_KEYWORDS
    (fun kw => keyword_matches (lowerL t) kw)
    (fun kw => keyword_matches (lowerL (t ++ ' ' :: k)) kw)
    (fun kw _ h => hmono kw h)
  constructor
  · simpa [classify_ds_policy_fit] using Nat.add_le_add hds hpol
  · intro hfit
    simp only [classify_ds_policy_fit, Bool.and_eq_true, decide_eq_true_eq] at hfit ⊢
    omega

/-- Witness for C5 at a concrete text and keyword. -/
theorem c5_monotonicity_witness :
    ("policy".toList) ∈ PROFILE_DS_KEYWORDS ++ PROFILE_POLICY_KEYWORDS ∧
    ((classify_ds_policy_fit ("x".toList)).dsPolicyScore ≤
      (classify_ds_policy_fit (("x".toList) ++ ' ' :: ("policy".toList))).dsPolicyScore ∧
    ((classify_ds_policy_fit ("x".toList)).isDsPolicyFit = true →
      (classify_ds_policy_fit (("x".toList) ++ ' ' :: ("policy".toList))).isDsPolicyFit = true)) :=
  ⟨by decide, c5_monotonicity ("x".toList) ("policy".toList) (by decide)⟩

/-- The fixed word-boundary literals of JOB_REGEX_PATTERNS; the alternation
patterns `vacanc(?:y|ies)` and `doktorand(?:en|in)?stelle` are expanded into
their finitely many alternatives. -/
def JOB_KEYWORDS : List (List Char) :=
  (["job", "vacancy", "vacancies", "opening", "assistant professor", "professur",
    "stelle", "stellenausschreibung", "hilfskraft", "praktikum", "internship",
    "bewerbung", "bewerbungsfrist", "apply", "postdoc", "phd", "doktorandstelle",
    "doktorandenstelle", "doktorandinstelle"] : List String).map String.toList

/-- is_job of the script: any JOB_REGEX_PATTERNS match (case-insensitive,
word-boundary-delimited literals). -/
def is_job (text : List Char) : Bool :=
  JOB_KEYWORDS.any (fun k => boundSearch none (lowerL text) k)

/-- infer_type of the script: "N/A" unless classified as a job post, else the
first matching rule of the fixed cascade. -/
def infer_type (text : List Char) (is_job_post : Bool) : List Char :=
  if !is_job_post then ("N/A".toList)
  else
    let lower := lowerL text
    if containsSub lower ("assistant professor".toList) then ("Assistant Professor".toList)
    else if containsSub lower ("postdoc".toList) then ("Postdoc".toList)
    else if containsSub lower ("phd".toList) then ("PhD".toList)
    else if containsSub lower ("professur".toList) then ("Professorship".toList)
    else if containsSub lower ("praktikum".toList) || containsSub lower ("internship".toList) then
      ("Internship".toList)
    else if containsSub lower ("hilfskraft".toList) then ("Student Assistant".toList)
    else if containsSub lower ("stelle".toList) || boundSearch none lower ("job".toList) then
      ("Position".toList)
    else ("N/A".toList)

/-- A persisted item (a JSON dict of the store).  The classification fields
isDsPolicyFit / dsPolicyScore / dsPolicyMatchedKeywords are Options because the
merge pass of main() tests for their presence; the textual fields are read via
dict.get with "" default, so a missing textual field is modelled as "". -/
structure Item where
  id : List Char
  subject : List Char
  from_ : List Char
  date : List Char
  organization : List Char
  positionType : List Char
  deadline : List Char
  links : List (List Char)
  snippet : List Char
  isJob : Bool
  isDsPolicyFit : Option Bool
  dsPolicyScore : Option Nat
  dsPolicyMatchedKeywords : Option (List (List Char))
deriving DecidableEq

/-- The text surface rebuilt by main()'s merge loop:
subject, snippet, organization, positionType joined by newlines. -/
def reclassText (it : Item) : List Char :=
  it.subject ++ '\n' :: (it.snippet ++ '\n' :: (it.organization ++ '\n' :: it.positionType))

/-- The per-item body of main()'s merge loop: isJob and positionType are always
recomputed from the rebuilt text surface; the ds/policy-fit fields only when
isDsPolicyFit or dsPolicyScore is missing. -/
def reclassifyItem (it : Item) : Item :=
  let text := reclassText it
  let ij := is_job text
  let pt := infer_type text ij
  if it.isDsPolicyFit.isNone || it.dsPolicyScore.isNone then
    let fit := classify_ds_policy_fit text
    { it with isJob := ij, positionType := pt,
              isDsPolicyFit := some fit.isDsPolicyFit,
              dsPolicyScore := some fit.dsPolicyScore,
              dsPolicyMatchedKeywords := some fit.dsPolicyMatchedKeywords }
  else
    { it with isJob := ij, positionType := pt }

/-- Python string comparison (lexicographic on code points). -/
def lexLe : List Char → List Char → Bool
  | [], _ => true
  | _ :: _, [] => false
  | a :: as, b :: bs =>
    if a.toNat < b.toNat then true
    else if b.toNat < a.toNat then false
    else lexLe as bs

/-- Sort relation of main(): date string descending (a before b iff
b.date ≤ a.date); ties keep list order because the sort is stable. -/
def dateGe (a b : Item) : Bool := lexLe b.date a.date

/-- The known-id set built by main(): ids of prior items, skipping falsy ids. -/
def knownIds (existing : List Item) : List (List Char) :=
  (existing.filter (fun i => !i.id.isEmpty)).map Item.id

/-- main()'s new-item loop: parsed items whose id is already known (from the
store or from an earlier parsed item of the same run) are skipped. -/
def dedupNew : List (List Char) → List Item → List Item
  | _, [] => []
  | known, i :: rest =>
    if i.id ∈ known then dedupNew known rest
    else i :: dedupNew (i.id :: known) rest

/-- The Store Merger of main(): dedup new items against known ids, concatenate,
sort by date descending (stable), reclassify every merged item, keep the first
500. -/
def storeMerge (existing parsed : List Item) : List Item :=
  let new_items := dedupNew (knownIds existing) parsed
  let merged := (existing ++ new_items).mergeSort dateGe
  (merged.map reclassifyItem).take 500

/-- Executable pairwise check (used to state sortedness without binders). -/
def pairwiseB {α : Type} (R : α → α → Bool) : List α → Bool
  | [] => true
  | a :: l => l.all (fun b => R a b) && pairwiseB R l

theorem lexLe_total (a b : List Char) : lexLe a b = true ∨ lexLe b a = true := by
  induction a generalizing b with
  | nil => left; simp [lexLe]
  | cons x as ih =>
    cases b with
    | nil => right; simp [lexLe]
    | cons y bs =>
      rcases Nat.lt_trichotomy x.toNat y.toNat with h | h | h
      · left; simp [lexLe, h]
      · have hxy : ¬ x.toNat < y.toNat := by omega
        have hyx : ¬ y.toNat < x.toNat := by omega
        rcases ih bs with h' | h'
        · left; simp [lexLe, hxy, hyx, h']
        · right; simp [lexLe, hxy, hyx, h']
      · right; simp [lexLe, h]

theorem lexLe_trans {a b c : List Char} (h1 : lexLe a b = true)
    (h2 : lexLe b c = true) : lexLe a c = true := by
  induction a generalizing b c with
  | nil => simp [lexLe]
  | cons x as ih =>
    cases b with
    | nil => simp [lexLe] at h1
    | cons y bs =>
      cases c with
      | nil => simp [lexLe] at h2
      | cons z cs =>
        simp only [lexLe] at h1 h2 ⊢
        by_cases hxy : x.toNat < y.toNat
        · by_cases hyz : y.toNat < z.toNat
          · have hxz : x.toNat < z.toNat := by omega
            simp [hxz]
          · by_cases hzy : z.toNat < y.toNat
            · rw [if_neg hyz, if_pos hzy] at h2
              exact absurd h2 (by simp)
            · have hxz : x.toNat < z.toNat := by omega
              simp [hxz]
        · by_cases hyx : y.toNat < x.toNat
          · rw [if_neg hxy, if_pos hyx] at h1
            exact absurd h1 (by simp)
          · rw [if_neg hxy, if_neg hyx] at h1
            by_cases hyz : y.toNat < z.toNat
            · have hxz : x.toNat < z.toNat := by omega
              simp [hxz]
            · by_cases hzy : z.toNat < y.toNat
              · rw [if_neg hyz, if_pos hzy] at h2
                exact absurd h2 (by simp)
              · rw [if_neg hyz, if_neg hzy] at h2
                have hxz : ¬ x.toNat < z.toNat := by omega
                have hzx : ¬ z.toNat < x.toNat := by omega
                rw [if_neg hxz, if_neg hzx]
                exact ih h1 h2

theorem dateGe_trans (a b c : Item) (h1 : dateGe a b) (h2 : dateGe b c) :
    dateGe a c := lexLe_trans h2 h1

theorem dateGe_total (a b : Item) : dateGe a b || dateGe b a := by
  rcases lexLe_total b.date a.date with h | h <;> simp [dateGe, h]

theorem reclassifyItem_date (it : Item) : (reclassifyItem it).date = it.date := by
  unfold reclassifyItem
  split <;> rfl

theorem pairwiseB_iff {α : Type} (R : α → α → Bool) (l : List α) :
    pairwiseB R l = true ↔ l.Pairwise (fun a b => R a b = true) := by
  induction l with
  | nil => simp [pairwiseB]
  | cons a l ih =>
    simp [pairwiseB, List.all_eq_true, ih, List.pairwise_cons]

theorem list_map_self {α : Type} {f : α → α} {l : List α}
    (h : ∀ x ∈ l, f x = x) : l.map f = l := by
  induction l with
  | nil => rfl
  | cons a l ih =>
    simp only [List.map_cons, h a (List.mem_cons_self a l),
      ih (fun x hx => h x (List.mem_cons_of_mem a hx))]

theorem storeMerge_singleton (x : Item) :
    storeMerge [x] [] = [reclassifyItem x] := by
  show ((([x] ++ dedupNew (knownIds [x]) []).mergeSort dateGe).map reclassifyItem).take 500 =
    [reclassifyItem x]
  rw [show ([x] ++ dedupNew (knownIds [x]) []) = [x] from rfl,
    List.mergeSort_singleton]
  rfl

/-- C7: capacity bound: the merged store keeps min 500 (number of merged items)
items, sorted by date string descending, and every retained item's date is
lexicographically at least every dropped item's date. -/
theorem c7_capacity (ex p : List Item) :
    (storeMerge ex p).length = min 500 (ex ++ dedupNew (knownIds ex) p).length ∧
    pairwiseB dateGe (storeMerge ex p) = true ∧
    ((storeMerge ex p).all (fun a =>
      ((((ex ++ dedupNew (knownIds ex) p).mergeSort dateGe).map reclassifyItem).drop 500).all
        (fun b => lexLe b.date a.date))) = true := by
  have hL : storeMerge ex p =
      (((ex ++ dedupNew (knownIds ex) p).mergeSort dateGe).map reclassifyItem).take 500 := rfl
  have hsorted : (((ex ++ dedupNew (knownIds ex) p).mergeSort dateGe).map
      reclassifyItem).Pairwise (fun a b => dateGe a b = true) := by
    have h0 : ((ex ++ dedupNew (knownIds ex) p).mergeSort dateGe).Pairwise
        (fun a b => dateGe a b = true) :=
      List.sorted_mergeSort (fun a b c => dateGe_trans a b c)
        (fun a b => dateGe_total a b) _
    exact h0.map reclassifyItem
      (fun a b h => by simpa [dateGe, reclassifyItem_date] using h)
  refine ⟨?_, ?_, ?_⟩
  · rw [hL, List.length_take, List.length_map, List.length_mergeSort]
  · rw [hL, pairwiseB_iff]
    exact hsorted.sublist (List.take_sublist _ _)
  · rw [List.all_eq_true]
    intro a ha
    rw [List.all_eq_true]
    intro b hb
    rw [hL] at ha
    have hsplit := hsorted
    rw [← List.take_append_drop 500
      (((ex ++ dedupNew (knownIds ex) p).mergeSort dateGe).map reclassifyItem)] at hsplit
    have hcross := (List.pairwise_append.1 hsplit).2.2
    exact hcross a ha b hb

def c2Bad : Item :=
  { id := ("aa".toList), subject := [], from_ := [], date := [],
    organization := [], positionType := ("vacancy".toList), deadline := [],
    links := [], snippet := [], isJob := false, isDsPolicyFit := some false,
    dsPolicyScore := some 0, dsPolicyMatchedKeywords := some [] }

/-- C2 fails as stated: a persisted collection produced by one merge run is not
always reproduced by an empty re-run.  An item stored with positionType
"vacancy" is persisted by a run as isJob = true, positionType "N/A"; the next
empty run flips isJob back to false because "N/A" no longer matches any job
pattern. -/
theorem c2_counterexample :
    storeMerge (storeMerge [c2Bad] []) [] ≠ storeMerge [c2Bad] [] := by
  rw [storeMerge_singleton c2Bad, storeMerge_singleton (reclassifyItem c2Bad)]
  decide

def c2Fixed : Item :=
  { id := ("a1b2".toList), subject := ("phd".toList), from_ := [],
    date := ("2024-05-01".toList), organization := [],
    positionType := ("PhD".toList), deadline := ("Not found".toList),
    links := [], snippet := [], isJob := true, isDsPolicyFit := some false,
    dsPolicyScore := some 0, dsPolicyMatchedKeywords := some [] }

/-- C2 amended: re-running the Store Merger with an empty new-items list
reproduces the stored item sequence provided the stored sequence is
date-sorted descending, holds at most 500 items, and every stored item is a
fixed point of the per-item reclassification pass (as it is for items whose
classification fields agree with their own text surface); without the
fixed-point condition a re-run may change isJob/positionType, as the
counterexample shows. -/
theorem c2_amended (S : List Item)
    (hsorted : pairwiseB dateGe S = true)
    (hlen : S.length ≤ 500)
    (hfix : S.all (fun it => decide (reclassifyItem it = it)) = true) :
    storeMerge S [] = S := by
  show (((S ++ dedupNew (knownIds S) []).mergeSort dateGe).map reclassifyItem).take 500 = S
  rw [show dedupNew (knownIds S) [] = [] from rfl, List.append_nil]
  have hp : List.Pairwise (fun a b => dateGe a b = true) S := (pairwiseB_iff _ _).1 hsorted
  rw [List.mergeSort_of_sorted hp]
  have hfix' : ∀ it ∈ S, reclassifyItem it = it := by
    intro it hit
    have := List.all_eq_true.1 hfix it hit
    simpa using this
  rw [list_map_self hfix']
  exact List.take_of_length_le hlen

/-- Witness for C2 amended at a concrete one-item store. -/
theorem c2_amended_witness :
    pairwiseB dateGe [c2Fixed] = true ∧
    ([c2Fixed] : List Item).length ≤ 500 ∧
    ([c2Fixed].all (fun it => decide (reclassifyItem it = it))) = true ∧
    storeMerge [c2Fixed] [] = [c2Fixed] :=
  ⟨by decide, by decide, by decide,
    c2_amended [c2Fixed] (by decide) (by decide) (by decide)⟩

theorem reclassifyItem_isJob (x : Item) :
    (reclassifyItem x).isJob = is_job (reclassText x) := by
  unfold reclassifyItem
  split <;> rfl

theorem reclassifyItem_positionType (x : Item) :
    (reclassifyItem x).positionType =
      infer_type (reclassText x) (is_job (reclassText x)) := by
  unfold reclassifyItem
  split <;> rfl

theorem reclassifyItem_fit_present (x : Item)
    (h1 : x.isDsPolicyFit.isSome = true) (h2 : x.dsPolicyScore.isSome = true) :
    (reclassifyItem x).isDsPolicyFit = x.isDsPolicyFit ∧
    (reclassifyItem x).dsPolicyScore = x.dsPolicyScore ∧
    (reclassifyItem x).dsPolicyMatchedKeywords = x.dsPolicyMatchedKeywords := by
  cases hx : x.isDsPolicyFit <;> cases hy : x.dsPolicyScore <;>
    simp_all [reclassifyItem, hx, hy]

theorem reclassifyItem_fit_missing (x : Item)
    (h : x.isDsPolicyFit.isSome = false ∨ x.dsPolicyScore.isSome = false) :
    (reclassifyItem x).isDsPolicyFit =
      some (classify_ds_policy_fit (reclassText x)).isDsPolicyFit ∧
    (reclassifyItem x).dsPolicyScore =
      some (classify_ds_policy_fit (reclassText x)).dsPolicyScore ∧
    (reclassifyItem x).dsPolicyMatchedKeywords =
      some (classify_ds_policy_fit (reclassText x)).dsPolicyMatchedKeywords := by
  cases hx : x.isDsPolicyFit <;> cases hy : x.dsPolicyScore <;>
    simp_all [reclassifyItem, hx, hy]

theorem reclassifyItem_fit_isSome (x : Item) :
    (reclassifyItem x).isDsPolicyFit.isSome = true ∧
    (reclassifyItem x).dsPolicyScore.isSome = true := by
  cases hx : x.isDsPolicyFit <;> cases hy : x.dsPolicyScore <;>
    simp_all [reclassifyItem, hx, hy]

def c1Stale : Item :=
  { id := ("c1id".toList), subject := ("machine learning policy".toList),
    from_ := [], date := [], organization := [], positionType := [],
    deadline := [], links := [], snippet := [], isJob := false,
    isDsPolicyFit := some false, dsPolicyScore := some 0,
    dsPolicyMatchedKeywords := some [] }

/-- C1 fails as stated: a stored item whose isDsPolicyFit/dsPolicyScore fields
are present but stale keeps them unchanged through the merge pass, even though
recomputation from its reconstructed text surface would give score 2 and fit
true: only isJob and positionType are recomputed unconditionally. -/
theorem c1_counterexample :
    (storeMerge [c1Stale] []).map (fun it => it.dsPolicyScore) = [some 0] ∧
    (storeMerge [c1Stale] []).map (fun it => it.isDsPolicyFit) = [some false] ∧
    (classify_ds_policy_fit (reclassText c1Stale)).dsPolicyScore = 2 ∧
    (classify_ds_policy_fit (reclassText c1Stale)).isDsPolicyFit = true := by
  rw [storeMerge_singleton c1Stale]
  refine ⟨by decide, by decide, by decide, by decide⟩

/-- C1 amended: every item retained by the Store Merger is the image of a
merged input item under the per-item pass; that pass recomputes isJob and
positionType from the reconstructed text surface for every item, but recomputes
isDsPolicyFit/dsPolicyScore/dsPolicyMatchedKeywords only when isDsPolicyFit or
dsPolicyScore is missing, carrying present values over unchanged. -/
theorem c1_amended (ex p : List Item) (it : Item)
    (hmem : it ∈ storeMerge ex p) :
    ∃ src, src ∈ ex ++ dedupNew (knownIds ex) p ∧
      it = reclassifyItem src ∧
      it.isJob = is_job (reclassText src) ∧
      it.positionType = infer_type (reclassText src) (is_job (reclassText src)) ∧
      it.isDsPolicyFit.isSome = true ∧ it.dsPolicyScore.isSome = true ∧
      (src.isDsPolicyFit.isSome = true → src.dsPolicyScore.isSome = true →
        it.isDsPolicyFit = src.isDsPolicyFit ∧
        it.dsPolicyScore = src.dsPolicyScore ∧
        it.dsPolicyMatchedKeywords = src.dsPolicyMatchedKeywords) ∧
      ((src.isDsPolicyFit.isSome = false ∨ src.dsPolicyScore.isSome = false) →
        it.isDsPolicyFit = some (classify_ds_policy_fit (reclassText src)).isDsPolicyFit ∧
        it.dsPolicyScore = some (classify_ds_policy_fit (reclassText src)).dsPolicyScore ∧
        it.dsPolicyMatchedKeywords =
          some (classify_ds_policy_fit (reclassText src)).dsPolicyMatchedKeywords) := by
  have hmem' : it ∈ ((ex ++ dedupNew (knownIds ex) p).mergeSort dateGe).map reclassifyItem :=
    List.mem_of_mem_take hmem
  obtain ⟨src, hsrc, heq⟩ := List.mem_map.1 hmem'
  refine ⟨src, List.mem_mergeSort.1 hsrc, heq.symm, ?_, ?_, ?_, ?_, ?_, ?_⟩
  · rw [← heq, reclassifyItem_isJob]
  · rw [← heq, reclassifyItem_positionType]
  · rw [← heq]; exact (reclassifyItem_fit_isSome src).1
  · rw [← heq]; exact (reclassifyItem_fit_isSome src).2
  · intro h1 h2
    rw [← heq]
    exact reclassifyItem_fit_present src h1 h2
  · intro h
    rw [← heq]
    exact reclassifyItem_fit_missing src h

def c1Fresh : Item :=
  { id := ("c1w".toList), subject := ("postdoc".toList), from_ := [],
    date := [], organization := [], positionType := ("Postdoc".toList),
    deadline := [], links := [], snippet := [], isJob := true,
    isDsPolicyFit := some false, dsPolicyScore := some 0,
    dsPolicyMatchedKeywords := some [] }

/-- Witness for C1 amended at a concrete one-item store. -/
theorem c1_amended_witness :
    ∃ src, src ∈ [c1Fresh] ++ dedupNew (knownIds [c1Fresh]) [] ∧
      reclassifyItem c1Fresh = reclassifyItem src ∧
      (reclassifyItem c1Fresh).isJob = is_job (reclassText src) ∧
      (reclassifyItem c1Fresh).positionType =
        infer_type (reclassText src) (is_job (reclassText src)) ∧
      (reclassifyItem c1Fresh).isDsPolicyFit.isSome = true ∧
      (reclassifyItem c1Fresh).dsPolicyScore.isSome = true ∧
      (src.isDsPolicyFit.isSome = true → src.dsPolicyScore.isSome = true →
        (reclassifyItem c1Fresh).isDsPolicyFit = src.isDsPolicyFit ∧
        (reclassifyItem c1Fresh).dsPolicyScore = src.dsPolicyScore ∧
        (reclassifyItem c1Fresh).dsPolicyMatchedKeywords = src.dsPolicyMatchedKeywords) ∧
      ((src.isDsPolicyFit.isSome = false ∨ src.dsPolicyScore.isSome = false) →
        (reclassifyItem c1Fresh).isDsPolicyFit =
          some (classify_ds_policy_fit (reclassText src)).isDsPolicyFit ∧
        (reclassifyItem c1Fresh).dsPolicyScore =
          some (classify_ds_policy_fit (reclassText src)).dsPolicyScore ∧
        (reclassifyItem c1Fresh).dsPolicyMatchedKeywords =
          some (classify_ds_policy_fit (reclassText src)).dsPolicyMatchedKeywords) :=
  c1_amended [c1Fresh] [] (reclassifyItem c1Fresh)
    (by rw [storeMerge_singleton]; exact List.mem_singleton_self _)

theorem startsWith_of_append {k t v : List Char}
    (h : startsWith k (t ++ v) = true) (hl : k.length ≤ t.length) :
    startsWith k t = true := by
  induction k generalizing t with
  | nil => simp [startsWith]
  | cons a ks ih =>
    cases t with
    | nil => simp at hl
    | cons b ts =>
      simp only [List.cons_append, startsWith, Bool.and_eq_true] at h
      simp only [startsWith, Bool.and_eq_true]
      exact ⟨h.1, ih h.2 (by simpa using hl)⟩

theorem startsWith_sep_mem {k t u : List Char} {sep : Char}
    (h : startsWith k (t ++ sep :: u) = true) (hl : t.length < k.length) :
    sep ∈ k := by
  induction t generalizing k with
  | nil =>
    cases k with
    | nil => simp at hl
    | cons a ks =>
      simp only [List.nil_append, startsWith, Bool.and_eq_true, beq_iff_eq] at h
      rw [← h.1]
      exact List.mem_cons_self a ks
  | cons b ts ih =>
    cases k with
    | nil => simp at hl
    | cons a ks =>
      simp only [List.cons_append, startsWith, Bool.and_eq_true] at h
      exact List.mem_cons_of_mem a (ih h.2 (by simpa using hl))

theorem containsSub_split {a b k : List Char} {sep : Char}
    (h : containsSub (a ++ sep :: b) k = true) (hsep : sep ∉ k) :
    containsSub a k = true ∨ containsSub b k = true := by
  induction a with
  | nil =>
    simp only [List.nil_append, containsSub, Bool.or_eq_true] at h
    rcases h with h | h
    · cases k with
      | nil => exact Or.inl (containsSub_nil_pat [])
      | cons x ks =>
        simp only [startsWith, Bool.and_eq_true, beq_iff_eq] at h
        exact absurd (by rw [h.1]; exact List.mem_cons_self sep ks) hsep
    · exact Or.inr h
  | cons c as ih =>
    simp only [List.cons_append, containsSub, Bool.or_eq_true] at h
    rcases h with h | h
    · by_cases hl : k.length ≤ (c :: as).length
      · have hsw : startsWith k (c :: as) = true := by
          have h' : startsWith k ((c :: as) ++ sep :: b) = true := by
            simpa using h
          exact startsWith_of_append h' hl
        exact Or.inl (by simp [containsSub, hsw])
      · have hl' : (c :: as).length < k.length := by omega
        have h' : startsWith k ((c :: as) ++ sep :: b) = true := by simpa using h
        exact absurd (startsWith_sep_mem h' hl') hsep
    · rcases ih h with h' | h'
      · exact Or.inl (by simp [containsSub, h'])
      · exact Or.inr h'

theorem boundSearch_prepend {b k : List Char} {sep : Char}
    (h : boundSearch (some sep) b k = true) :
    ∀ (prev : Option Char) (a : List Char),
      boundSearch prev (a ++ sep :: b) k = true := by
  intro prev a
  induction a generalizing prev with
  | nil =>
    simp only [List.nil_append, boundSearch, Bool.or_eq_true]
    exact Or.inr h
  | cons c as ih =>
    simp only [List.cons_append, boundSearch, Bool.or_eq_true]
    exact Or.inr (ih (some c))

theorem lowerL_reclassText (it : Item) :
    lowerL (reclassText it) =
      lowerL it.subject ++ '\n' :: (lowerL it.snippet ++ '\n' ::
        (lowerL it.organization ++ '\n' :: lowerL it.positionType)) := by
  simp [reclassText, lowerL, (by decide : Char.toLower '\n' = '\n')]

theorem containsSub_reclass_cases {it : Item} {kw : List Char}
    (hnl : '\n' ∉ kw)
    (h : containsSub (lowerL (reclassText it)) kw = true) :
    containsSub (lowerL it.subject) kw = true ∨
    containsSub (lowerL it.snippet) kw = true ∨
    containsSub (lowerL it.organization) kw = true ∨
    containsSub (lowerL it.positionType) kw = true := by
  rw [lowerL_reclassText] at h
  rcases containsSub_split h hnl with h1 | h1
  · exact Or.inl h1
  · rcases containsSub_split h1 hnl with h2 | h2
    · exact Or.inr (Or.inl h2)
    · rcases containsSub_split h2 hnl with h3 | h3
      · exact Or.inr (Or.inr (Or.inl h3))
      · exact Or.inr (Or.inr (Or.inr h3))

/-- Substrings whose absence guarantees that a text triggers neither any
JOB_REGEX_PATTERNS match nor any infer_type keyword rule. -/
def JOB_TRIGGER_SUBSTRINGS : List (List Char) :=
  (["job", "vacanc", "opening", "assistant professor", "professur", "stelle",
    "hilfskraft", "praktikum", "internship", "bewerbung", "apply", "postdoc",
    "phd", "doktorand"] : List String).map String.toList

/-- A text free (case-insensitively) of every job-vocabulary substring. -/
def jobNeutral (x : List Char) : Bool :=
  JOB_TRIGGER_SUBSTRINGS.all (fun k => !(containsSub (lowerL x) k))

theorem containsSub_cons {t k : List Char} (c : Char) (h : containsSub t k = true) :
    containsSub (c :: t) k = true := by
  simp [containsSub, h]

theorem containsSub_suffix3 (s1 s2 s3 v k : List Char) (h : containsSub v k = true) :
    containsSub (s1 ++ '\n' :: (s2 ++ '\n' :: (s3 ++ '\n' :: v))) k = true :=
  containsSub_append_right s1 (containsSub_cons _ (containsSub_append_right s2
    (containsSub_cons _ (containsSub_append_right s3 (containsSub_cons _ h)))))

/-- C10: a stored item whose positionType is one of the values that themselves
match a job pattern is reclassified as a job and keeps that positionType on
every merge run, even when subject, snippet and organization are free of job
vocabulary: the rebuilt text surface includes the stored positionType. -/
theorem c10_self_reinforcing (it : Item)
    (hpt : it.positionType ∈ [("PhD".toList), ("Postdoc".toList),
      ("Assistant Professor".toList), ("Internship".toList)])
    (hs : jobNeutral it.subject = true)
    (hsn : jobNeutral it.snippet = true)
    (ho : jobNeutral it.organization = true) :
    (reclassifyItem it).isJob = true ∧
    (reclassifyItem it).positionType = it.positionType := by
  have hsub : ∀ kw ∈ JOB_TRIGGER_SUBSTRINGS, containsSub (lowerL it.subject) kw = false := by
    intro kw hkw
    simpa using List.all_eq_true.1 hs kw hkw
  have hsnn : ∀ kw ∈ JOB_TRIGGER_SUBSTRINGS, containsSub (lowerL it.snippet) kw = false := by
    intro kw hkw
    simpa using List.all_eq_true.1 hsn kw hkw
  have horg : ∀ kw ∈ JOB_TRIGGER_SUBSTRINGS,
      containsSub (lowerL it.organization) kw = false := by
    intro kw hkw
    simpa using List.all_eq_true.1 ho kw hkw
  have hnone : ∀ kw, kw ∈ JOB_TRIGGER_SUBSTRINGS → '\n' ∉ kw →
      containsSub (lowerL it.positionType) kw = false →
      containsSub (lowerL (reclassText it)) kw = false := by
    intro kw hkw hnl hptkw
    cases hc : containsSub (lowerL (reclassText it)) kw with
    | false => rfl
    | true =>
      rcases containsSub_reclass_cases hnl hc with h | h | h | h
      · exact absurd h (by simp [hsub kw hkw])
      · exact absurd h (by simp [hsnn kw hkw])
      · exact absurd h (by simp [horg kw hkw])
      · exact absurd h (by simp [hptkw])
  simp only [List.mem_cons, List.not_mem_nil, or_false] at hpt
  rcases hpt with hv | hv | hv | hv
  · have hb : boundSearch (some '\n') (lowerL (("PhD" : String).toList))
        (("phd" : String).toList) = true := by decide
    have hj : is_job (reclassText it) = true := by
      unfold is_job
      rw [List.any_eq_true]
      refine ⟨("phd".toList), by decide, ?_⟩
      rw [lowerL_reclassText, hv]
      exact boundSearch_prepend (boundSearch_prepend (boundSearch_prepend hb (some '\n')
        (lowerL it.organization)) (some '\n') (lowerL it.snippet)) none (lowerL it.subject)
    have e1 : containsSub (lowerL (reclassText it)) ("assistant professor".toList) = false :=
      hnone _ (by decide) (by decide) (by rw [hv]; decide)
    have e2 : containsSub (lowerL (reclassText it)) ("postdoc".toList) = false :=
      hnone _ (by decide) (by decide) (by rw [hv]; decide)
    have e3 : containsSub (lowerL (reclassText it)) ("phd".toList) = true := by
      rw [lowerL_reclassText, hv]
      exact containsSub_suffix3 _ _ _ _ _ (by decide)
    refine ⟨by rw [reclassifyItem_isJob, hj], ?_⟩
    rw [reclassifyItem_positionType, hj, hv]
    simp only [infer_type, e1, e2, e3]
    simp
  · have hb : boundSearch (some '\n') (lowerL (("Postdoc" : String).toList))
        (("postdoc" : String).toList) = true := by decide
    have hj : is_job (reclassText it) = true := by
      unfold is_job
      rw [List.any_eq_true]
      refine ⟨("postdoc".toList), by decide, ?_⟩
      rw [lowerL_reclassText, hv]
      exact boundSearch_prepend (boundSearch_prepend (boundSearch_prepend hb (some '\n')
        (lowerL it.organization)) (some '\n') (lowerL it.snippet)) none (lowerL it.subject)
    have e1 : containsSub (lowerL (reclassText it)) ("assistant professor".toList) = false :=
      hnone _ (by decide) (by decide) (by rw [hv]; decide)
    have e2 : containsSub (lowerL (reclassText it)) ("postdoc".toList) = true := by
      rw [lowerL_reclassText, hv]
      exact containsSub_suffix3 _ _ _ _ _ (by decide)
    refine ⟨by rw [reclassifyItem_isJob, hj], ?_⟩
    rw [reclassifyItem_positionType, hj, hv]
    simp only [infer_type, e1, e2]
    simp
  · have hb : boundSearch (some '\n') (lowerL (("Assistant Professor" : String).toList))
        (("assistant professor" : String).toList) = true := by decide
    have hj : is_job (reclassText it) = true := by
      unfold is_job
      rw [List.any_eq_true]
      refine ⟨("assistant professor".toList), by decide, ?_⟩
      rw [lowerL_reclassText, hv]
      exact boundSearch_prepend (boundSearch_prepend (boundSearch_prepend hb (some '\n')
        (lowerL it.organization)) (some '\n') (lowerL it.snippet)) none (lowerL it.subject)
    have e1 : containsSub (lowerL (reclassText it)) ("assistant professor".toList) = true := by
      rw [lowerL_reclassText, hv]
      exact containsSub_suffix3 _ _ _ _ _ (by decide)
    refine ⟨by rw [reclassifyItem_isJob, hj], ?_⟩
    rw [reclassifyItem_positionType, hj, hv]
    simp only [infer_type, e1]
    simp
  · have hb : boundSearch (some '\n') (lowerL (("Internship" : String).toList))
        (("internship" : String).toList) = true := by decide
    have hj : is_job (reclassText it) = true := by
      unfold is_job
      rw [List.any_eq_true]
      refine ⟨("internship".toList), by decide, ?_⟩
      rw [lowerL_reclassText, hv]
      exact boundSearch_prepend (boundSearch_prepend (boundSearch_prepend hb (some '\n')
        (lowerL it.organization)) (some '\n') (lowerL it.snippet)) none (lowerL it.subject)
    have e1 : containsSub (lowerL (reclassText it)) ("assistant professor".toList) = false :=
      hnone _ (by decide) (by decide) (by rw [hv]; decide)
    have e2 : containsSub (lowerL (reclassText it)) ("postdoc".toList) = false :=
      hnone _ (by decide) (by decide) (by rw [hv]; decide)
    have e3 : containsSub (lowerL (reclassText it)) ("phd".toList) = false :=
      hnone _ (by decide) (by decide) (by rw [hv]; decide)
    have e4 : containsSub (lowerL (reclassText it)) ("professur".toList) = false :=
      hnone _ (by decide) (by decide) (by rw [hv]; decide)
    have e5 : containsSub (lowerL (reclassText it)) ("internship".toList) = true := by
      rw [lowerL_reclassText, hv]
      exact containsSub_suffix3 _ _ _ _ _ (by decide)
    refine ⟨by rw [reclassifyItem_isJob, hj], ?_⟩
    rw [reclassifyItem_positionType, hj, hv]
    simp only [infer_type, e1, e2, e3, e4, e5]
    simp

def c10Item : Item :=
  { id := ("x".toList), subject := ("research group".toList), from_ := [],
    date := [], organization := [], positionType := ("PhD".toList),
    deadline := [], links := [], snippet := [], isJob := false,
    isDsPolicyFit := some false, dsPolicyScore := some 0,
    dsPolicyMatchedKeywords := some [] }

/-- Witness for C10 at a concrete stored item. -/
theorem c10_self_reinforcing_witness :
    c10Item.positionType ∈ [("PhD".toList), ("Postdoc".toList),
      ("Assistant Professor".toList), ("Internship".toList)] ∧
    jobNeutral c10Item.subject = true ∧
    jobNeutral c10Item.snippet = true ∧
    jobNeutral c10Item.organization = true ∧
    ((reclassifyItem c10Item).isJob = true ∧
      (reclassifyItem c10Item).positionType = c10Item.positionType) :=
  ⟨by decide, by decide, by decide, by decide,
    c10_self_reinforcing c10Item (by decide) (by decide) (by decide) (by decide)⟩

/-- The split lookahead of split_messages: `(?=\s*Message:\s+\d+\n)`. -/
def lookMsg (s : List Char) : Bool :=
  let t := s.dropWhile isWS
  startsWith ("Message:".toList) t &&
    (match t.drop 8 with
      | [] => false
      | c :: r =>
        isWS c &&
          (match (c :: r).dropWhile isWS with
            | [] => false
            | c2 :: _ =>
              c2.isDigit &&
                (match ((c :: r).dropWhile isWS).dropWhile Char.isDigit with
                  | '\n' :: _ => true
                  | _ => false)))

/-- The filter pattern of split_messages at one line start:
`\s*Message:\s+\d+` (multiline `^` anchored just before `s`). -/
def lineStartMatch (s : List Char) : Bool :=
  let t := s.dropWhile isWS
  startsWith ("Message:".toList) t &&
    (match t.drop 8 with
      | [] => false
      | c :: r =>
        isWS c &&
          (match (c :: r).dropWhile isWS with
            | [] => false
            | c2 :: _ => c2.isDigit))

/-- Successful filter match at a position strictly after a newline. -/
def msgAfterNl : List Char → Bool
  | [] => false
  | c :: rest => (c == '\n' && lineStartMatch rest) || msgAfterNl rest

/-- re.search of `^\s*Message:\s+\d+` with re.MULTILINE. -/
def hasMsgLine (s : List Char) : Bool :=
  lineStartMatch s || msgAfterNl s

/-- re.split on `\n(?=\s*Message:\s+\d+\n)`: cut at every newline whose suffix
satisfies the lookahead (the newline separator is consumed). -/
def splitAux : List Char → List Char → List (List Char)
  | acc, [] => [acc.reverse]
  | acc, c :: rest =>
    if c == '\n' && lookMsg rest then acc.reverse :: splitAux [] rest
    else splitAux (c :: acc) rest

/-- split_messages of the script: remove CRs, split at message markers, keep
chunks containing a `Message: N` line, fall back to the whole normalized text. -/
def split_messages (raw : List Char) : List (List Char) :=
  let normalized := raw.filter (fun c => !(c == '\r'))
  let chunks := splitAux [] normalized
  let filtered := chunks.filter hasMsgLine
  if filtered.isEmpty then [normalized] else filtered

theorem splitAux_ne_nil (s acc : List Char) : splitAux acc s ≠ [] := by
  induction s generalizing acc with
  | nil => simp [splitAux]
  | cons c rest ih =>
    simp only [splitAux]
    split
    · simp
    · exact ih _

theorem lineStartMatch_extend {p : List Char} (e : List Char)
    (h : lineStartMatch p = true) : lineStartMatch (p ++ e) = true := by
  unfold lineStartMatch at h ⊢
  simp only [Bool.and_eq_true] at h ⊢
  obtain ⟨hsw, hrest⟩ := h
  have hne : p.dropWhile isWS ≠ [] := by
    intro hnil
    rw [hnil] at hsw
    simp [startsWith] at hsw
  have hdw : (p ++ e).dropWhile isWS = p.dropWhile isWS ++ e := by
    rw [List.dropWhile_append]
    simp [hne]
  rw [hdw]
  refine ⟨startsWith_append e hsw, ?_⟩
  have hlen : ("Message:".toList : List Char).length ≤ (p.dropWhile isWS).length :=
    startsWith_length hsw
  rw [List.drop_append_of_le_length (by simpa using hlen)]
  rcases h8 : (p.dropWhile isWS).drop 8 with _ | ⟨c, r⟩
  · rw [h8] at hrest
    simp at hrest
  · rw [h8] at hrest
    simp only [Bool.and_eq_true] at hrest
    obtain ⟨hc, hr2⟩ := hrest
    simp only [List.cons_append, Bool.and_eq_true]
    refine ⟨hc, ?_⟩
    have hne2 : (c :: r).dropWhile isWS ≠ [] := by
      rcases hdw2 : (c :: r).dropWhile isWS with _ | _
      · rw [hdw2] at hr2; simp at hr2
      · simp
    have : ((c :: r) ++ e).dropWhile isWS = (c :: r).dropWhile isWS ++ e := by
      rw [List.dropWhile_append]
      simp [hne2]
    rw [show (c :: (r ++ e)) = (c :: r) ++ e from rfl, this]
    rcases hdw2 : (c :: r).dropWhile isWS with _ | ⟨c2, r2⟩
    · exact absurd hdw2 hne2
    · rw [hdw2] at hr2
      simpa using hr2

theorem hasMsgLine_extend {p : List Char} (e : List Char)
    (h : hasMsgLine p = true) : hasMsgLine (p ++ e) = true := by
  unfold hasMsgLine at h ⊢
  simp only [Bool.or_eq_true] at h ⊢
  rcases h with h | h
  · exact Or.inl (lineStartMatch_extend e h)
  · refine Or.inr ?_
    induction p with
    | nil => simp [msgAfterNl] at h
    | cons c rest ih =>
      simp only [msgAfterNl, Bool.or_eq_true, Bool.and_eq_true] at h
      simp only [List.cons_append, msgAfterNl, Bool.or_eq_true, Bool.and_eq_true]
      rcases h with ⟨hc, hm⟩ | h
      · exact Or.inl ⟨hc, lineStartMatch_extend e hm⟩
      · exact Or.inr (ih h)

theorem msgAfterNl_of_suffix {b : List Char} (x : List Char)
    (h : hasMsgLine b = true) : msgAfterNl (x ++ '\n' :: b) = true := by
  induction x with
  | nil =>
    simp only [List.nil_append, msgAfterNl, Bool.or_eq_true, Bool.and_eq_true]
    unfold hasMsgLine at h
    simp only [Bool.or_eq_true] at h
    rcases h with h | h
    · exact Or.inl ⟨by simp, h⟩
    · exact Or.inr h
  | cons c rest ih =>
    simp only [List.cons_append, msgAfterNl, Bool.or_eq_true]
    exact Or.inr ih

theorem splitAux_chunk_msg {s : List Char} :
    ∀ (acc c : List Char), c ∈ splitAux acc s → hasMsgLine c = true →
      hasMsgLine (acc.reverse ++ s) = true := by
  induction s with
  | nil =>
    intro acc c hc hm
    simp only [splitAux, List.mem_singleton] at hc
    rw [List.append_nil]
    rwa [hc] at hm
  | cons ch rest ih =>
    intro acc c hc hm
    simp only [splitAux] at hc
    by_cases hcond : (ch == '\n' && lookMsg rest) = true
    · rw [if_pos hcond] at hc
      simp only [Bool.and_eq_true, beq_iff_eq] at hcond
      rcases List.mem_cons.1 hc with hc | hc
      · rw [hc] at hm
        exact hasMsgLine_extend (ch :: rest) hm
      · have h1 := ih [] c hc hm
        simp only [List.reverse_nil, List.nil_append] at h1
        rw [hcond.1]
        unfold hasMsgLine
        simp only [Bool.or_eq_true]
        exact Or.inr (msgAfterNl_of_suffix acc.reverse h1)
    · rw [if_neg hcond] at hc
      have h1 := ih (ch :: acc) c hc hm
      simpa using h1

/-- C3 fails as stated only on inputs containing carriage returns: the fallback
chunk is the CR-stripped input, not the raw input.  "a\r" contains no
`Message: N` line, yet the single returned chunk is "a", not "a\r". -/
theorem c3_counterexample :
    hasMsgLine (("a\r" : String).toList) = false ∧
    split_messages (("a\r" : String).toList) ≠ [(("a\r" : String).toList)] := by
  decide

/-- C3 amended: the Segmenter is total: for every input it returns a non-empty
chunk sequence, and whenever the CR-stripped input contains no line matching
`Message: <digits>`, it returns exactly one chunk equal to the CR-stripped
input (hence equal to the whole input whenever the input has no CR). -/
theorem c3_totality (raw : List Char) :
    split_messages raw ≠ [] ∧
    (hasMsgLine (raw.filter (fun c => !(c == '\r'))) = false →
      split_messages raw = [raw.filter (fun c => !(c == '\r'))]) := by
  have hun : split_messages raw =
      (if ((splitAux [] (raw.filter (fun c => !(c == '\r')))).filter hasMsgLine).isEmpty
        then [raw.filter (fun c => !(c == '\r'))]
        else (splitAux [] (raw.filter (fun c => !(c == '\r')))).filter hasMsgLine) := rfl
  constructor
  · rw [hun]
    split
    · simp
    · next hne =>
      intro hnil
      rw [hnil] at hne
      simp at hne
  · intro hno
    rw [hun]
    have hfilt : (splitAux [] (raw.filter (fun c => !(c == '\r')))).filter hasMsgLine = [] := by
      rw [List.filter_eq_nil_iff]
      intro c hc
      intro hcm
      have := splitAux_chunk_msg [] c hc hcm
      simp only [List.reverse_nil, List.nil_append] at this
      rw [hno] at this
      cases this
    rw [hfilt]
    simp

/-- Witness for C3 amended at a concrete marker-free input. -/
theorem c3_totality_witness :
    hasMsgLine ((("hello world" : String).toList).filter (fun c => !(c == '\r'))) = false ∧
    (split_messages (("hello world" : String).toList) ≠ [] ∧
      split_messages (("hello world" : String).toList) =
        [(("hello world" : String).toList).filter (fun c => !(c == '\r'))]) :=
  ⟨by decide,
    (c3_totality (("hello world" : String).toList)).1,
    (c3_totality (("hello world" : String).toList)).2 (by decide)⟩

/-- The header-name part of extract_header's lookahead: `[A-Za-z-]+:`. -/
def hdrNameTail (s : List Char) : Bool :=
  let run := s.takeWhile (fun c => c.isAlpha || c == '-')
  !run.isEmpty &&
    (match s.drop run.length with
      | ':' :: _ => true
      | _ => false)

/-- extract_header's capture terminator `(?=\n[A-Z][A-Za-z-]+:|\n\n|$)`;
Python `$` (no MULTILINE) also matches just before a trailing newline. -/
def hdrLookahead (s : List Char) : Bool :=
  match s with
  | [] => true
  | '\n' :: rest =>
    rest.isEmpty ||
      (match rest with
        | '\n' :: _ => true
        | c :: r2 => c.isUpper && hdrNameTail r2
        | [] => false)
  | _ => false

/-- The lazy capture `([\s\S]*?)`: shortest prefix whose remainder satisfies
the lookahead (always terminates: the empty remainder satisfies it). -/
def lazyCapture : List Char → List Char
  | [] => []
  | c :: rest => if hdrLookahead (c :: rest) then [] else c :: lazyCapture rest

/-- Match of `name:\s*([\s\S]*?)(?=...)` anchored at the given position. -/
def hdrAt (s name : List Char) : Option (List Char) :=
  if startsWith (name ++ [':']) s then
    some (lazyCapture ((s.drop (name.length + 1)).dropWhile isWS))
  else none

/-- Scan for the pattern at the line starts strictly after a newline. -/
def hdrScanAfterNl : List Char → List Char → Option (List Char)
  | [], _ => none
  | c :: rest, name =>
    if c == '\n' then
      match hdrAt rest name with
      | some cap => some cap
      | none => hdrScanAfterNl rest name
    else hdrScanAfterNl rest name

/-- Leftmost multiline `^name:` match of extract_header. -/
def hdrFind (block name : List Char) : Option (List Char) :=
  match hdrAt block name with
  | some cap => some cap
  | none => hdrScanAfterNl block name

/-- re.sub of `\n\s+` by a single space (header unfolding); structural fuel
recursion (every recursive call shortens the text, so fuel = length suffices
and the fuel-exhausted branch is unreachable). -/
def unfoldFuel : Nat → List Char → List Char
  | 0, s => s
  | fuel + 1, s =>
    match s with
    | [] => []
    | c :: rest =>
      if c == '\n' then
        match rest with
        | [] => ['\n']
        | c2 :: _ =>
          if isWS c2 then ' ' :: unfoldFuel fuel (rest.dropWhile isWS)
          else '\n' :: unfoldFuel fuel rest
      else c :: unfoldFuel fuel rest

def unfoldHdr (s : List Char) : List Char := unfoldFuel s.length s

/-- extract_header of the script. -/
def extract_header (block name : List Char) : List Char :=
  match hdrFind block name with
  | none => []
  | some cap => stripL (unfoldHdr cap)

/-- clean_subject of the script: strip one leading case-insensitive
`[ib-liste]` tag with its trailing whitespace, then strip. -/
def clean_subject (subject : List Char) : List Char :=
  if startsWith ("[ib-liste]".toList) (lowerL subject) then
    stripL ((subject.drop 10).dropWhile isWS)
  else stripL subject

/-- One decimal digit character. -/
def digitChar (n : Nat) : Char := ("0123456789".toList).getD n '0'

/-- Decimal digits (least significant first) by structural fuel recursion;
`n` itself is enough fuel since `n / 10 < n` for positive `n`. -/
def digitsFuel : Nat → Nat → List Char
  | 0, _ => []
  | fuel + 1, n => if n = 0 then [] else digitChar (n % 10) :: digitsFuel fuel (n / 10)

/-- Python str(n) for a natural number (as in f"Message \x7bidx\x7d"). -/
def natToStr (n : Nat) : List Char :=
  if n = 0 then ['0'] else (digitsFuel n n).reverse

/-- Python str.split("\n\n") (leftmost, non-overlapping). -/
def splitNNAux : List Char → List Char → List (List Char)
  | acc, '\n' :: '\n' :: rest => acc.reverse :: splitNNAux [] rest
  | acc, c :: rest => splitNNAux (c :: acc) rest
  | acc, [] => [acc.reverse]

/-- The body of a block: everything after the first blank line, re-joined with
blank lines; the whole block when it contains no blank line. -/
def bodyOf (block : List Char) : List Char :=
  match splitNNAux [] block with
  | [] => block
  | _ :: tail => if tail.isEmpty then block else List.intercalate ("\n\n".toList) tail

/-- Character class `[^\s)>]` of the link pattern. -/
def linkChar (c : Char) : Bool := !isWS c && !(c == ')') && !(c == '>')

/-- re.findall of `https?://[^\s)>]+`: leftmost, non-overlapping, greedy;
structural fuel recursion (every recursive call shortens the text). -/
def linksFuel : Nat → List Char → List (List Char)
  | 0, _ => []
  | fuel + 1, s =>
    match s with
    | [] => []
    | c :: rest =>
      if startsWith ("https://".toList) (c :: rest) then
        if (((c :: rest).drop 8).takeWhile linkChar).isEmpty then linksFuel fuel rest
        else ((c :: rest).take 8 ++ ((c :: rest).drop 8).takeWhile linkChar) ::
          linksFuel fuel (((c :: rest).drop 8).drop
            (((c :: rest).drop 8).takeWhile linkChar).length)
      else if startsWith ("http://".toList) (c :: rest) then
        if (((c :: rest).drop 7).takeWhile linkChar).isEmpty then linksFuel fuel rest
        else ((c :: rest).take 7 ++ ((c :: rest).drop 7).takeWhile linkChar) ::
          linksFuel fuel (((c :: rest).drop 7).drop
            (((c :: rest).drop 7).takeWhile linkChar).length)
      else linksFuel fuel rest

def findLinks (s : List Char) : List (List Char) := linksFuel s.length s

/-- Python dict.fromkeys dedup: keep first occurrences in order; structural
fuel recursion (the filtered tail is never longer than the tail). -/
def dedupFuel : Nat → List (List Char) → List (List Char)
  | 0, _ => []
  | fuel + 1, l =>
    match l with
    | [] => []
    | x :: xs => x :: dedupFuel fuel (xs.filter (fun y => !(y == x)))

def dedupKeepFirst (l : List (List Char)) : List (List Char) := dedupFuel l.length l

/-- The alternatives of the organization pattern
`(?:University|Universit[aä]t|Institut|Institute)`, in alternation order. -/
def ORG_ALTS : List (List Char) :=
  (["university", "universitat", "universität", "institut", "institute"] :
    List String).map String.toList

/-- Character class `[^,\n.]` of the organization pattern. -/
def orgChar (c : Char) : Bool := !(c == ',') && !(c == '\n') && !(c == '.')

/-- Try the organization alternatives at one position: the alternative must be
followed by at least one whitespace character, then the greedy class run. -/
def orgAltTry : List (List Char) → List Char → Option (List Char)
  | [], _ => none
  | alt :: alts, s =>
    if lowerL (s.take alt.length) == alt then
      if ((s.drop alt.length).takeWhile isWS).isEmpty then orgAltTry alts s
      else some (s.take alt.length ++ (s.drop alt.length).takeWhile isWS ++
        ((s.drop alt.length).drop ((s.drop alt.length).takeWhile isWS).length).takeWhile orgChar)
    else orgAltTry alts s

/-- Leftmost match of the organization pattern. -/
def orgScan : List Char → Option (List Char)
  | [] => none
  | c :: rest =>
    match orgAltTry ORG_ALTS (c :: rest) with
    | some m => some m
    | none => orgScan rest

/-- The `,\s*([^,]+)$` fallback: the text after the final comma, when
non-empty (strip applied by the caller). -/
def lastCommaTail : List Char → Option (List Char)
  | [] => none
  | c :: rest =>
    match lastCommaTail rest with
    | some t => some t
    | none => if c == ',' then (if rest.isEmpty then none else some rest) else none

/-- infer_org of the script. -/
def infer_org (subject body : List Char) : List Char :=
  match orgScan (subject ++ '\n' :: body) with
  | some u => stripL u
  | none =>
    match lastCommaTail subject with
    | some t => stripL t
    | none => ("Unknown".toList)

/-- Character class `[^\n\r.!?]` of the deadline patterns. -/
def dlChar (c : Char) : Bool :=
  !(c == '\n') && !(c == '\r') && !(c == '.') && !(c == '!') && !(c == '?')

/-- Backtracking of `\s+` before the capture of `apply by\s+([^\n\r.!?]+)`:
try consuming j whitespace characters, largest j first, at least one. -/
def p1Back (rest : List Char) : Nat → Option (List Char)
  | 0 => none
  | j + 1 =>
    if ((rest.drop (j + 1)).takeWhile dlChar).isEmpty then p1Back rest j
    else some ((rest.drop (j + 1)).takeWhile dlChar)

/-- Pattern 1 `apply by\s+([^\n\r.!?]+)` anchored at one position. -/
def p1At (s : List Char) : Option (List Char) :=
  if lowerL (s.take 8) == ("apply by".toList) then
    p1Back (s.drop 8) ((s.drop 8).takeWhile isWS).length
  else none

/-- The capture `([^\n\r.!?]+)` of pattern 2. -/
def p2D (r : List Char) : Option (List Char) :=
  if (r.takeWhile dlChar).isEmpty then none else some (r.takeWhile dlChar)

/-- Backtracking of the second `\s*` of pattern 2, largest first. -/
def p2C (r : List Char) : Nat → Option (List Char)
  | 0 => p2D r
  | j + 1 =>
    match p2D (r.drop (j + 1)) with
    | some cap => some cap
    | none => p2C r j

def p2CD (r : List Char) : Option (List Char) := p2C r (r.takeWhile isWS).length

/-- The optional `[:\-]?` of pattern 2 (prefer consuming it). -/
def p2B (r : List Char) : Option (List Char) :=
  match r with
  | c :: r2 =>
    if c == ':' || c == '-' then
      match p2CD r2 with
      | some cap => some cap
      | none => p2CD r
    else p2CD r
  | [] => p2CD r

/-- Backtracking of the first `\s*` of pattern 2, largest first. -/
def p2A (rest : List Char) : Nat → Option (List Char)
  | 0 => p2B rest
  | j + 1 =>
    match p2B (rest.drop (j + 1)) with
    | some cap => some cap
    | none => p2A rest j

/-- Pattern 2 `bewerbungsfrist\s*[:\-]?\s*([^\n\r.!?]+)` at one position. -/
def p2At (s : List Char) : Option (List Char) :=
  if lowerL (s.take 15) == ("bewerbungsfrist".toList) then
    p2A (s.drop 15) ((s.drop 15).takeWhile isWS).length
  else none

/-- The date capture `([0-9]{1,2}\.[0-9]{1,2}\.[0-9]{2,4})` of pattern 3. -/
def p3Date (r : List Char) : Option (List Char) :=
  let d1 := r.takeWhile Char.isDigit
  if d1.isEmpty || decide (2 < d1.length) then none
  else
    match r.drop d1.length with
    | '.' :: r2 =>
      let d2 := r2.takeWhile Char.isDigit
      if d2.isEmpty || decide (2 < d2.length) then none
      else
        match r2.drop d2.length with
        | '.' :: r3 =>
          let d3 := r3.takeWhile Char.isDigit
          if decide (d3.length < 2) then none
          else some (d1 ++ '.' :: (d2 ++ '.' :: d3.take 4))
        | _ => none
    | _ => none

/-- Pattern 3 `bis zum\s+(<date>)` at one position. -/
def p3At (s : List Char) : Option (List Char) :=
  if lowerL (s.take 7) == ("bis zum".toList) then
    if ((s.drop 7).takeWhile isWS).isEmpty then none
    else p3Date ((s.drop 7).dropWhile isWS)
  else none

/-- re.search: leftmost position where the positional matcher succeeds. -/
def dlScan (f : List Char → Option (List Char)) : List Char → Option (List Char)
  | [] => f []
  | c :: rest =>
    match f (c :: rest) with
    | some m => some m
    | none => dlScan f rest

/-- infer_deadline of the script: first pattern (in order) with a match wins;
each capture is non-empty by construction, so the truthiness test of the
script always passes on a match. -/
def infer_deadline (text : List Char) : List Char :=
  match dlScan p1At text with
  | some cap => stripL cap
  | none =>
    match dlScan p2At text with
    | some cap => stripL cap
    | none =>
      match dlScan p3At text with
      | some cap => stripL cap
      | none => ("Not found".toList)

/-- The tail of the `<br\s*/?>` signal after `<br`. -/
def brTail (r : List Char) : Bool :=
  match r.dropWhile isWS with
  | '/' :: '>' :: _ => true
  | '>' :: _ => true
  | _ => false

/-- `\b` after a literal ending in a word character. -/
def afterBoundary (r : List Char) : Bool :=
  match r with
  | [] => true
  | c :: _ => !isWordChar c

/-- One position of the HTML-signal pattern `(?i)<html|<br\s*/?>|<div\b|<body\b`. -/
def htmlAt (s : List Char) : Bool :=
  lowerL (s.take 5) == ("<html".toList) ||
  (lowerL (s.take 3) == ("<br".toList) && brTail (s.drop 3)) ||
  (lowerL (s.take 4) == ("<div".toList) && afterBoundary (s.drop 4)) ||
  (lowerL (s.take 5) == ("<body".toList) && afterBoundary (s.drop 5))

/-- The HTML-signal test of parse_digest_text. -/
def hasHtmlSignal : List Char → Bool
  | [] => false
  | c :: rest => htmlAt (c :: rest) || hasHtmlSignal rest

/-- UTF-8 encoding of one scalar value. -/
def utf8Char (c : Char) : List Nat :=
  let n := c.toNat
  if n < 128 then [n]
  else if n < 2048 then [192 + n / 64, 128 + n % 64]
  else if n < 65536 then [224 + n / 4096, 128 + n / 64 % 64, 128 + n % 64]
  else [240 + n / 262144, 128 + n / 4096 % 64, 128 + n / 64 % 64, 128 + n % 64]

/-- str.encode("utf-8"): total on Lean scalars, so errors="ignore" is vacuous. -/
def utf8Bytes (s : List Char) : List Nat := (s.map utf8Char).flatten

def w32 (n : Nat) : Nat := n % 4294967296

/-- 32-bit left rotation (argument below 2 ^ 32). -/
def rotl (b n : Nat) : Nat := w32 (n * 2 ^ b + n / 2 ^ (32 - b))

/-- SHA-1 message padding. -/
def sha1Pad (msg : List Nat) : List Nat :=
  let bitLen := msg.length * 8
  let padZeros := (55 + 64 - msg.length % 64) % 64
  msg ++ 128 :: (List.replicate padZeros 0 ++
    [bitLen / 2 ^ 56 % 256, bitLen / 2 ^ 48 % 256, bitLen / 2 ^ 40 % 256,
     bitLen / 2 ^ 32 % 256, bitLen / 2 ^ 24 % 256, bitLen / 2 ^ 16 % 256,
     bitLen / 2 ^ 8 % 256, bitLen % 256])

/-- Big-endian 32-bit words of a 64-byte block. -/
def bytesToWords : List Nat → List Nat
  | b0 :: b1 :: b2 :: b3 :: rest =>
    (b0 * 16777216 + b1 * 65536 + b2 * 256 + b3) :: bytesToWords rest
  | _ => []

/-- One step of the SHA-1 message-schedule extension (newest word first). -/
def extendStep (rev : List Nat) : List Nat :=
  rotl 1 (Nat.xor (Nat.xor (rev.getD 2 0) (rev.getD 7 0))
    (Nat.xor (rev.getD 13 0) (rev.getD 15 0))) :: rev

def extendN : Nat → List Nat → List Nat
  | 0, rev => rev
  | k + 1, rev => extendN k (extendStep rev)

def sha1F (i b c d : Nat) : Nat :=
  if i < 20 then Nat.lor (Nat.land b c) (Nat.land (Nat.xor b 4294967295) d)
  else if i < 40 then Nat.xor (Nat.xor b c) d
  else if i < 60 then Nat.lor (Nat.lor (Nat.land b c) (Nat.land b d)) (Nat.land c d)
  else Nat.xor (Nat.xor b c) d

def sha1K (i : Nat) : Nat :=
  if i < 20 then 1518500249 else if i < 40 then 1859775393
  else if i < 60 then 2400959708 else 3395469782

def sha1Rounds : Nat → List Nat → Nat × Nat × Nat × Nat × Nat → Nat × Nat × Nat × Nat × Nat
  | _, [], st => st
  | i, w :: ws, (a, b, c, d, e) =>
    sha1Rounds (i + 1) ws (w32 (rotl 5 a + sha1F i b c d + e + sha1K i + w), a, rotl 30 b, c, d)

/-- SHA-1 compression of one 64-byte block. -/
def sha1Block (h : Nat × Nat × Nat × Nat × Nat) (block : List Nat) :
    Nat × Nat × Nat × Nat × Nat :=
  match sha1Rounds 0 ((extendN 64 (bytesToWords block).reverse).reverse) h, h with
  | (a, b, c, d, e), (h0, h1, h2, h3, h4) =>
    (w32 (h0 + a), w32 (h1 + b), w32 (h2 + c), w32 (h3 + d), w32 (h4 + e))

/-- Chunked compression over all 64-byte blocks (structural fuel recursion:
one fuel unit per block; the message length is ample fuel). -/
def sha1BlocksFuel : Nat → Nat × Nat × Nat × Nat × Nat → List Nat →
    Nat × Nat × Nat × Nat × Nat
  | 0, h, _ => h
  | fuel + 1, h, bytes =>
    match bytes with
    | [] => h
    | b :: rest => sha1BlocksFuel fuel (sha1Block h ((b :: rest).take 64)) ((b :: rest).drop 64)

def sha1Blocks (h : Nat × Nat × Nat × Nat × Nat) (bytes : List Nat) :
    Nat × Nat × Nat × Nat × Nat :=
  sha1BlocksFuel bytes.length h bytes

def hexDig (n : Nat) : Char := ("0123456789abcdef".toList).getD n '0'

/-- Lowercase hexadecimal rendering of one 32-bit word. -/
def wordHex (w : Nat) : List Char :=
  [hexDig (w / 268435456 % 16), hexDig (w / 16777216 % 16), hexDig (w / 1048576 % 16),
   hexDig (w / 65536 % 16), hexDig (w / 4096 % 16), hexDig (w / 256 % 16),
   hexDig (w / 16 % 16), hexDig (w % 16)]

/-- hashlib.sha1(...).hexdigest(). -/
def sha1hex (msg : List Nat) : List Char :=
  let d := sha1Blocks (1732584193, 4023233417, 2562383102, 271733878, 3285377520)
    (sha1Pad msg)
  wordHex d.1 ++ wordHex d.2.1 ++ wordHex d.2.2.1 ++ wordHex d.2.2.2.1 ++ wordHex d.2.2.2.2

/-- The fingerprint source `subject|from|date|firstLinkOrEmpty`. -/
def fingerprint (subj sender date : List Char) (links : List (List Char)) : List Char :=
  subj ++ '|' :: (sender ++ '|' :: (date ++ '|' :: links.headD []))

/-- The item id: first 16 hex characters of the SHA-1 of the fingerprint. -/
def itemId (subj sender date : List Char) (links : List (List Char)) : List Char :=
  (sha1hex (utf8Bytes (fingerprint subj sender date links))).take 16

/-- The subject of one block, with the synthetic `Message N` default. -/
def parseSubject0 (idx : Nat) (block : List Char) : List Char :=
  if (extract_header block ("Subject".toList)).isEmpty then
    ("Message ".toList) ++ natToStr idx
  else extract_header block ("Subject".toList)

def parseSender (block : List Char) : List Char :=
  if (extract_header block ("From".toList)).isEmpty then ("Unknown".toList)
  else extract_header block ("From".toList)

def parseDate (block : List Char) : List Char :=
  if (extract_header block ("Date".toList)).isEmpty then ("Unknown".toList)
  else extract_header block ("Date".toList)

/-- The classification text `subject\nbody` of one block. -/
def parseText (idx : Nat) (block : List Char) : List Char :=
  parseSubject0 idx block ++ '\n' :: bodyOf block

/-- The loop body of parse_digest_text for one block (1-based index). -/
def parseBlock (idx : Nat) (block : List Char) : Item :=
  { id := itemId (clean_subject (parseSubject0 idx block)) (parseSender block)
      (parseDate block) (dedupKeepFirst (findLinks (bodyOf block))),
    subject := clean_subject (parseSubject0 idx block),
    from_ := parseSender block,
    date := parseDate block,
    organization := infer_org (parseSubject0 idx block) (bodyOf block),
    positionType := infer_type (parseText idx block) (is_job (parseText idx block)),
    deadline := infer_deadline (parseText idx block),
    links := dedupKeepFirst (findLinks (bodyOf block)),
    snippet := stripL (bodyOf block),
    isJob := is_job (parseText idx block),
    isDsPolicyFit := some (classify_ds_policy_fit (parseText idx block)).isDsPolicyFit,
    dsPolicyScore := some (classify_ds_policy_fit (parseText idx block)).dsPolicyScore,
    dsPolicyMatchedKeywords :=
      some (classify_ds_policy_fit (parseText idx block)).dsPolicyMatchedKeywords }

/-- parse_digest_text of the script on inputs without HTML signal (the
html_to_text branch is not taken; theorems carry hasHtmlSignal = false). -/
def parse_digest_text_plain (raw : List Char) : List Item :=
  (split_messages raw).enum.map (fun p => parseBlock (p.1 + 1) p.2)

theorem sha1hex_length (msg : List Nat) : (sha1hex msg).length = 40 := by
  simp [sha1hex, wordHex]

theorem hexDig_mem (n : Nat) : hexDig n ∈ (("0123456789abcdef" : String).toList) := by
  unfold hexDig
  by_cases h : n < 16
  · interval_cases n <;> decide
  · rw [List.getD_eq_default]
    · decide
    · simpa using h

theorem wordHex_mem {w : Nat} {c : Char} (h : c ∈ wordHex w) :
    c ∈ (("0123456789abcdef" : String).toList) := by
  simp only [wordHex, List.mem_cons, List.not_mem_nil, or_false] at h
  rcases h with h | h | h | h | h | h | h | h <;> (rw [h]; exact hexDig_mem _)

theorem sha1hex_mem {msg : List Nat} {c : Char} (h : c ∈ sha1hex msg) :
    c ∈ (("0123456789abcdef" : String).toList) := by
  simp only [sha1hex, List.mem_append] at h
  rcases h with ((((h | h) | h) | h) | h) <;> exact wordHex_mem h

theorem dedupNew_not_known : ∀ (known : List (List Char)) (parsed : List Item),
    ∀ j ∈ dedupNew known parsed, j.id ∉ known := by
  intro known parsed
  induction parsed generalizing known with
  | nil => intro j hj; simp [dedupNew] at hj
  | cons i rest ih =>
    intro j hj
    rw [dedupNew] at hj
    by_cases hik : i.id ∈ known
    · rw [if_pos hik] at hj
      exact ih known j hj
    · rw [if_neg hik] at hj
      rcases List.mem_cons.1 hj with h | h
      · rw [h]; exact hik
      · intro hk
        exact ih (i.id :: known) j h (List.mem_cons_of_mem _ hk)

theorem dedupNew_nodup (known : List (List Char)) (parsed : List Item) :
    ((dedupNew known parsed).map Item.id).Nodup := by
  induction parsed generalizing known with
  | nil => simp [dedupNew]
  | cons i rest ih =>
    rw [dedupNew]
    by_cases hik : i.id ∈ known
    · rw [if_pos hik]
      exact ih known
    · rw [if_neg hik]
      simp only [List.map_cons, List.nodup_cons]
      refine ⟨?_, ih (i.id :: known)⟩
      intro hmem
      obtain ⟨j, hj, hje⟩ := List.mem_map.1 hmem
      exact dedupNew_not_known (i.id :: known) rest j hj
        (by rw [hje]; exact List.mem_cons_self _ _)

/-- C6: items with identical cleaned subject, from, date and first link (or
both without links) get the same 16-character lowercase-hex id, and the merge
keeps exactly one item per id: the new-item loop never emits an id twice nor an
id already in the store's known set. -/
theorem c6_dedup (i1 i2 : Nat) (b1 b2 : List Char)
    (hs : (parseBlock i1 b1).subject = (parseBlock i2 b2).subject)
    (hf : (parseBlock i1 b1).from_ = (parseBlock i2 b2).from_)
    (hd : (parseBlock i1 b1).date = (parseBlock i2 b2).date)
    (hl : (parseBlock i1 b1).links.headD [] = (parseBlock i2 b2).links.headD []) :
    (parseBlock i1 b1).id = (parseBlock i2 b2).id ∧
    (parseBlock i1 b1).id.length = 16 ∧
    (∀ c ∈ (parseBlock i1 b1).id, c ∈ (("0123456789abcdef" : String).toList)) ∧
    (∀ (known : List (List Char)) (parsed : List Item),
      ((dedupNew known parsed).map Item.id).Nodup ∧
      ∀ j ∈ dedupNew known parsed, j.id ∉ known) := by
  have hid : ∀ (i : Nat) (b : List Char), (parseBlock i b).id =
      (sha1hex (utf8Bytes ((parseBlock i b).subject ++ '|' ::
        ((parseBlock i b).from_ ++ '|' ::
          ((parseBlock i b).date ++ '|' :: (parseBlock i b).links.headD []))))).take 16 :=
    fun i b => rfl
  refine ⟨?_, ?_, ?_, ?_⟩
  · rw [hid i1 b1, hid i2 b2, hs, hf, hd, hl]
  · rw [hid i1 b1, List.length_take, sha1hex_length]
    decide
  · intro c hc
    rw [hid i1 b1] at hc
    exact sha1hex_mem (List.take_subset _ _ hc)
  · exact fun known parsed => ⟨dedupNew_nodup known parsed, dedupNew_not_known known parsed⟩

def c6b1 : List Char := ("Subject: A\nFrom: b\nDate: c\n\nx https://e.org/l").toList

def c6b2 : List Char := ("Subject: A\nFrom: b\nDate: c\n\ny words https://e.org/l").toList

/-- Witness for C6 at two concrete blocks differing only in body text. -/
theorem c6_dedup_witness :
    (parseBlock 1 c6b1).subject = (parseBlock 2 c6b2).subject ∧
    (parseBlock 1 c6b1).from_ = (parseBlock 2 c6b2).from_ ∧
    (parseBlock 1 c6b1).date = (parseBlock 2 c6b2).date ∧
    (parseBlock 1 c6b1).links.headD [] = (parseBlock 2 c6b2).links.headD [] ∧
    ((parseBlock 1 c6b1).id = (parseBlock 2 c6b2).id ∧
     (parseBlock 1 c6b1).id.length = 16 ∧
     (∀ c ∈ (parseBlock 1 c6b1).id, c ∈ (("0123456789abcdef" : String).toList)) ∧
     (∀ (known : List (List Char)) (parsed : List Item),
       ((dedupNew known parsed).map Item.id).Nodup ∧
       ∀ j ∈ dedupNew known parsed, j.id ∉ known)) :=
  ⟨by decide, by decide, by decide, by decide,
    c6_dedup 1 2 c6b1 c6b2 (by decide) (by decide) (by decide) (by decide)⟩

theorem digitChar_not_WS (k : Nat) : isWS (digitChar k) = false := by
  unfold digitChar
  by_cases hk : k < 10
  · interval_cases k <;> decide
  · rw [List.getD_eq_default]
    · decide
    · simpa using hk

theorem digitsFuel_not_WS : ∀ (fuel n : Nat), ∀ c ∈ digitsFuel fuel n, isWS c = false := by
  intro fuel
  induction fuel with
  | zero => intro n c hc; simp [digitsFuel] at hc
  | succ f ih =>
    intro n c hc
    rw [digitsFuel] at hc
    by_cases hn : n = 0
    · rw [if_pos hn] at hc
      simp at hc
    · rw [if_neg hn] at hc
      rcases List.mem_cons.1 hc with h | h
      · rw [h]; exact digitChar_not_WS _
      · exact ih _ c h

theorem natToStr_ne_nil (n : Nat) : natToStr n ≠ [] := by
  unfold natToStr
  by_cases hn : n = 0
  · simp [hn]
  · obtain ⟨m, rfl⟩ : ∃ m, n = m + 1 := ⟨n - 1, by omega⟩
    rw [if_neg hn]
    simp [digitsFuel]

theorem natToStr_not_WS {n : Nat} {c : Char} (h : c ∈ natToStr n) : isWS c = false := by
  unfold natToStr at h
  by_cases hn : n = 0
  · rw [if_pos hn] at h
    simp at h
    rw [h]
    decide
  · rw [if_neg hn, List.mem_reverse] at h
    exact digitsFuel_not_WS n n c h

theorem stripL_eq_self {l : List Char}
    (h1 : ∀ c, l.head? = some c → isWS c = false)
    (h2 : ∀ c, l.getLast? = some c → isWS c = false) : stripL l = l := by
  unfold stripL
  rcases l with _ | ⟨a, t⟩
  · rfl
  · have ha : isWS a = false := h1 a rfl
    rw [List.dropWhile_cons, if_neg (by simp [ha])]
    rcases List.eq_nil_or_concat (a :: t) with h | ⟨L, b, hL⟩
    · simp at h
    · rw [List.concat_eq_append] at hL
      have hb : isWS b = false := by
        apply h2
        rw [hL]
        exact List.getLast?_concat L
      rw [hL, List.reverse_append, List.reverse_singleton, List.singleton_append,
        List.dropWhile_cons, if_neg (by simp [hb]), List.reverse_cons,
        List.reverse_reverse]

theorem clean_subject_msg (idx : Nat) :
    clean_subject (("Message ".toList) ++ natToStr idx) =
      ("Message ".toList) ++ natToStr idx := by
  have hsw : startsWith ("[ib-liste]".toList)
      (lowerL (("Message ".toList) ++ natToStr idx)) = false := rfl
  unfold clean_subject
  simp only [hsw, Bool.false_eq_true, if_false]
  apply stripL_eq_self
  · intro c hc
    have hM : (("Message ".toList) ++ natToStr idx).head? = some 'M' := rfl
    rw [hM] at hc
    have := Option.some.inj hc
    rw [← this]
    decide
  · intro c hc
    rcases hg : (natToStr idx).getLast? with _ | d
    · rw [List.getLast?_eq_none_iff] at hg
      exact absurd hg (natToStr_ne_nil idx)
    · rw [List.getLast?_append, hg] at hc
      rw [show (some d).or (("Message ".toList).getLast?) = some d from rfl] at hc
      rw [← Option.some.inj hc]
      exact natToStr_not_WS (List.mem_of_getLast?_eq_some hg)

/-- C9: missing headers or fields never break parsing: one item is produced per
block, and absent Subject/From/Date headers, an unmatched deadline, and an
uninferable position type resolve to "Message N", "Unknown", "Unknown",
"Not found" and "N/A" respectively. -/
theorem c9_placeholders (idx : Nat) (block : List Char) :
    (∀ raw : List Char, (parse_digest_text_plain raw).length = (split_messages raw).length) ∧
    ((extract_header block ("Subject".toList)).isEmpty = true →
      (parseBlock idx block).subject = ("Message ".toList) ++ natToStr idx) ∧
    ((extract_header block ("From".toList)).isEmpty = true →
      (parseBlock idx block).from_ = ("Unknown".toList)) ∧
    ((extract_header block ("Date".toList)).isEmpty = true →
      (parseBlock idx block).date = ("Unknown".toList)) ∧
    (dlScan p1At (parseText idx block) = none →
      dlScan p2At (parseText idx block) = none →
      dlScan p3At (parseText idx block) = none →
      (parseBlock idx block).deadline = ("Not found".toList)) ∧
    (is_job (parseText idx block) = false →
      (parseBlock idx block).positionType = ("N/A".toList)) := by
  refine ⟨?_, ?_, ?_, ?_, ?_, ?_⟩
  · intro raw
    simp [parse_digest_text_plain]
  · intro h
    have hsub : (parseBlock idx block).subject = clean_subject (parseSubject0 idx block) := rfl
    rw [hsub]
    unfold parseSubject0
    rw [if_pos h]
    exact clean_subject_msg idx
  · intro h
    have hfr : (parseBlock idx block).from_ = parseSender block := rfl
    rw [hfr]
    unfold parseSender
    rw [if_pos h]
  · intro h
    have hdt : (parseBlock idx block).date = parseDate block := rfl
    rw [hdt]
    unfold parseDate
    rw [if_pos h]
  · intro h1 h2 h3
    have hdl : (parseBlock idx block).deadline = infer_deadline (parseText idx block) := rfl
    rw [hdl]
    unfold infer_deadline
    rw [h1, h2, h3]
  · intro h
    have hpt : (parseBlock idx block).positionType =
      infer_type (parseText idx block) (is_job (parseText idx block)) := rfl
    rw [hpt, h]
    rfl

/-- Witness for C9 at a concrete headerless block. -/
theorem c9_placeholders_witness :
    (extract_header (("hello").toList) (("Subject").toList)).isEmpty = true ∧
    (extract_header (("hello").toList) (("From").toList)).isEmpty = true ∧
    (extract_header (("hello").toList) (("Date").toList)).isEmpty = true ∧
    dlScan p1At (parseText 1 (("hello").toList)) = none ∧
    dlScan p2At (parseText 1 (("hello").toList)) = none ∧
    dlScan p3At (parseText 1 (("hello").toList)) = none ∧
    is_job (parseText 1 (("hello").toList)) = false ∧
    (parse_digest_text_plain (("hello").toList)).length =
      (split_messages (("hello").toList)).length ∧
    (parseBlock 1 (("hello").toList)).subject = ("Message ".toList) ++ natToStr 1 ∧
    (parseBlock 1 (("hello").toList)).from_ = ("Unknown".toList) ∧
    (parseBlock 1 (("hello").toList)).date = ("Unknown".toList) ∧
    (parseBlock 1 (("hello").toList)).deadline = ("Not found".toList) ∧
    (parseBlock 1 (("hello").toList)).positionType = ("N/A".toList) :=
  ⟨by decide, by decide, by decide, by decide, by decide, by decide, by decide,
    (c9_placeholders 1 (("hello").toList)).1 (("hello").toList),
    (c9_placeholders 1 (("hello").toList)).2.1 (by decide),
    (c9_placeholders 1 (("hello").toList)).2.2.1 (by decide),
    (c9_placeholders 1 (("hello").toList)).2.2.2.1 (by decide),
    (c9_placeholders 1 (("hello").toList)).2.2.2.2.1 (by decide) (by decide) (by decide),
    (c9_placeholders 1 (("hello").toList)).2.2.2.2.2 (by decide)⟩

def c8Input : List Char :=
  ("Message: 1\nSubject: [ib-liste] PhD position in Data Science, University of Example\nFrom: list@example.org\nDate: 2024-05-01\n\nApply by 2024-06-15. We study machine learning and public policy. https://example.org/job").toList

/-- C8 fails as stated on one field: the deadline capture class `[^\n\r.!?]+`
stops at the period, so the extracted deadline phrase is "2024-06-15", not
"2024-06-15." as the claim asserts. -/
theorem c8_counterexample :
    (parse_digest_text_plain c8Input).map (fun it => it.deadline) =
      [("2024-06-15".toList)] ∧
    (parse_digest_text_plain c8Input).map (fun it => it.deadline) ≠
      [("2024-06-15.".toList)] :=
  ⟨by decide, by decide⟩

/-- C8 amended: the end-to-end scenario yields exactly one item with the claimed
subject, organization, position type, links, isJob, isDsPolicyFit and score
(4, hence at least 2), and deadline "2024-06-15" (without the trailing
period). -/
theorem c8_scenario :
    hasHtmlSignal c8Input = false ∧
    (parse_digest_text_plain c8Input).map (fun it => it.subject) =
      [("PhD position in Data Science, University of Example".toList)] ∧
    (parse_digest_text_plain c8Input).map (fun it => it.organization) =
      [("University of Example".toList)] ∧
    (parse_digest_text_plain c8Input).map (fun it => it.positionType) =
      [("PhD".toList)] ∧
    (parse_digest_text_plain c8Input).map (fun it => it.deadline) =
      [("2024-06-15".toList)] ∧
    (parse_digest_text_plain c8Input).map (fun it => it.links) =
      [[("https://example.org/job".toList)]] ∧
    (parse_digest_text_plain c8Input).map (fun it => it.isJob) = [true] ∧
    (parse_digest_text_plain c8Input).map (fun it => it.isDsPolicyFit) = [some true] ∧
    (parse_digest_text_plain c8Input).map (fun it => it.dsPolicyScore) = [some 4] ∧
    (parse_digest_text_plain c8Input).all
      (fun it => decide (2 ≤ it.dsPolicyScore.getD 0)) = true :=
  ⟨by decide, by decide, by decide, by decide, by decide, by decide, by decide,
    by decide, by decide, by decide⟩

end IBList
